/-
Verification of the boundary-reconstruction program `bin/boundaries.py`
(OSM way-joining): a shallow embedding of its data model and algorithms,
with theorems checking the natural-language specification against it.

Python `==` on Node / Way / Relation compares identifiers only, so wherever
the source compares elements we compare identifier strings.  Dictionaries
keyed by Node objects (which hash by `node_id`) are embedded as association
lists keyed by the identifier string.
-/
import Mathlib

/-! ## Generic dictionary operations (Python `dict` on string keys) -/

/-- `k in d` for a Python dict embedded as an association list. -/
def dictHasKey {α : Type} (d : List (String × α)) (k : String) : Bool :=
  d.any (fun p => p.1 == k)

/-- `d[k]`, as an `Option` (Python raises `KeyError` when absent; callers
in the source either guard with `in` or propagate the error). -/
def dictLookup {α : Type} (d : List (String × α)) (k : String) : Option α :=
  (d.find? (fun p => p.1 == k)).map (fun p => p.2)

/-- `d[k] = v`: overwrite the existing entry, or append a new one. -/
def dictInsert {α : Type} (d : List (String × α)) (k : String) (v : α) :
    List (String × α) :=
  if dictHasKey d k then d.map (fun p => if p.1 == k then (k, v) else p)
  else d ++ [(k, v)]

/-- `del d[k]` (the caller checks presence; `join_way_soup` only deletes
keys it previously inserted). -/
def dictDelete {α : Type} (d : List (String × α)) (k : String) :
    List (String × α) :=
  d.filter (fun p => !(p.1 == k))

/-! ## Element model: `Node` and `Way` (classes `Node`, `Way` in the source) -/

/-- An OSM node.  `lat`/`lon` are kept as the attribute strings the parser
stores (`Node(node_id, attr['lat'], attr['lon'])` performs no conversion). -/
structure Node where
  node_id : String
  lat : String
  lon : String
  tags : List (String × String)
deriving DecidableEq, Repr

instance : Inhabited Node := ⟨⟨"", "", "", []⟩⟩

/-- `Node.__eq__`: comparison by `node_id` only. -/
def nodeEq (a b : Node) : Bool := a.node_id == b.node_id

/-- An OSM way.  `way_id = none` is Python's `Way(None, …)`, the synthetic
identifier of a joined way. -/
structure Way where
  way_id : Option String
  nodes : List Node
  tags : List (String × String)
deriving DecidableEq, Repr

instance : Inhabited Way := ⟨⟨none, [], []⟩⟩

/-- `way.first`, i.e. `self.nodes[0]`.  The source never calls this on an
empty way (a way with zero points is invalid per the data model); theorems
carry `nodes ≠ []` hypotheses so the `default` fallback is never relevant. -/
def Way.first (w : Way) : Node := w.nodes.head?.getD default

/-- `way.last`, i.e. `self.nodes[-1]`. -/
def Way.last (w : Way) : Node := w.nodes.getLast?.getD default

/-- `way.closed()`: `self.first == self.last` (Node equality = id equality). -/
def Way.closed (w : Way) : Bool := nodeEq w.first w.last

/-- The identifier sequence of a way's points (Python compares points by
identifier, so point-content statements are stated on these). -/
def Way.ids (w : Way) : List String := w.nodes.map Node.node_id

/-- The three failure modes of `Way.join` (the source raises `Exception`
with three distinct messages: two "Trying to join a closed way …" forms and
"Trying to join two ways with no end point in common"). -/
inductive JoinError where
  | alreadyClosed
  | noCommonEndpoint
deriving DecidableEq, Repr

/-- `Way.join`: translated branch for branch from the source.
`list(reversed(other.nodes))[0:-1]` is `other.nodes.reverse.dropLast`;
`xs[0:-1]` is `xs.dropLast`; the result is `Way(None, new_nodes)` (no
identifier, fresh empty tag dict). -/
def Way.join (self other : Way) : Except JoinError Way :=
  if self.closed then .error .alreadyClosed
  else if other.closed then .error .alreadyClosed
  else if nodeEq self.first other.first then
    .ok ⟨none, other.nodes.reverse.dropLast ++ self.nodes, []⟩
  else if nodeEq self.first other.last then
    .ok ⟨none, other.nodes.dropLast ++ self.nodes, []⟩
  else if nodeEq self.last other.first then
    .ok ⟨none, self.nodes.dropLast ++ other.nodes, []⟩
  else if nodeEq self.last other.last then
    .ok ⟨none, self.nodes.dropLast ++ other.nodes.reverse, []⟩
  else .error .noCommonEndpoint

/-! ### Endpoint-sharing predicates used to state the join claims -/

/-- A and B share at least one endpoint (by node identifier). -/
def sharesEndpoint (a b : Way) : Bool :=
  nodeEq a.first b.first || nodeEq a.first b.last ||
  nodeEq a.last b.first || nodeEq a.last b.last

/-- A and B share both endpoints (they form a 2-way loop). -/
def sharesBothEnds (a b : Way) : Bool :=
  (nodeEq a.first b.first && nodeEq a.last b.last) ||
  (nodeEq a.first b.last && nodeEq a.last b.first)

/-- The identifier of the endpoint at which `Way.join` splices, following
the source's branch order. -/
def spliceId (a b : Way) : String :=
  if nodeEq a.first b.first then a.first.node_id
  else if nodeEq a.first b.last then a.first.node_id
  else if nodeEq a.last b.first then a.last.node_id
  else a.last.node_id

/-- The identifiers of the two unshared ends, as the (first, last) pair of
the joined way, following the source's branch order. -/
def freeEnds (a b : Way) : String × String :=
  if nodeEq a.first b.first then (b.last.node_id, a.last.node_id)
  else if nodeEq a.first b.last then (b.first.node_id, a.last.node_id)
  else if nodeEq a.last b.first then (a.first.node_id, b.last.node_id)
  else (a.first.node_id, b.first.node_id)

/-! ## `EndpointToWayMap` (the Endpoint Index)

`self.endpoints` is a Python dict keyed by `Node` objects, which hash and
compare by `node_id`; we embed it as an association list keyed by the
identifier string.  The operations are generic in the stored value so the
same translation serves both the plain model (values are the `Way`s
themselves, as in the source) and the store-passing model used for the
frame claim (values are store addresses of those ways). -/

/-- Errors of the index: `add_way`'s "would overwrite existing way(s)" and
the `KeyError` a `del` on an absent key would raise. -/
inductive EMError where
  | conflictingEndpoint
  | keyError
deriving DecidableEq, Repr

/-- `get_from_either_end(way)`:
`[self.endpoints[e] for e in (way.first, way.last) if e in self.endpoints]`.
Keys are taken from `way`; `v` below picks what is stored for the way
(the way itself in the plain model). -/
def getFromEitherEndKeyed {α : Type} (m : List (String × α)) (w : Way) :
    List α :=
  [w.first.node_id, w.last.node_id].filterMap (fun k => dictLookup m k)

/-- `add_way(way)` storing `v` under both of `way`'s endpoints; fails when
either endpoint is already registered (`get_from_either_end` non-empty). -/
def addWayKeyed {α : Type} (m : List (String × α)) (w : Way) (v : α) :
    Except EMError (List (String × α)) :=
  if (getFromEitherEndKeyed m w).isEmpty then
    .ok (dictInsert (dictInsert m w.first.node_id v) w.last.node_id v)
  else .error .conflictingEndpoint

/-- `remove_way(way)`: `del self.endpoints[way.first]` then
`del self.endpoints[way.last]` (each a `KeyError` when absent). -/
def removeWayKeyed {α : Type} (m : List (String × α)) (w : Way) :
    Except EMError (List (String × α)) :=
  if dictHasKey m w.first.node_id then
    let m1 := dictDelete m w.first.node_id
    if dictHasKey m1 w.last.node_id then .ok (dictDelete m1 w.last.node_id)
    else .error .keyError
  else .error .keyError

/-- The Endpoint Index as the source uses it: endpoint id ↦ the open `Way`
terminating there. -/
abbrev EM : Type := List (String × Way)

def get_from_either_end (m : EM) (w : Way) : List Way :=
  getFromEitherEndKeyed m w

def add_way (m : EM) (w : Way) : Except EMError EM := addWayKeyed m w w

def remove_way (m : EM) (w : Way) : Except EMError EM := removeWayKeyed m w

/-- `number_of_endpoints()`: `len(self.endpoints)`. -/
def number_of_endpoints (m : EM) : Nat := m.length

/-! ## `join_way_soup` (the Way-Joiner) -/

/-- Failure modes of a joining pass: a failed `Way.join`, a failed index
operation, and the final "There were some unclosed paths left." -/
inductive SoupError where
  | joinFailed (e : JoinError)
  | indexFailed (e : EMError)
  | unclosedBoundary
deriving DecidableEq, Repr

/-- The loop state of `join_way_soup`: the accumulated `closed_ways` list
and the `endpoints_to_ways` index. -/
structure SoupState where
  closed_ways : List Way
  endpoints : EM
deriving DecidableEq

/-- The inner candidate loop of `join_way_soup`:
`for existing_way in to_join_to: joined = joined.join(existing_way);
remove existing_way; if joined.closed(): append joined; break`.
Returns the index, the closed-ways list and the final `joined`. -/
def joinLoop : EM → List Way → Way → List Way →
    Except SoupError (EM × List Way × Way)
  | m, closed, joined, [] => .ok (m, closed, joined)
  | m, closed, joined, existing :: rest =>
    match joined.join existing with
    | .error e => .error (.joinFailed e)
    | .ok j =>
      match remove_way m existing with
      | .error e => .error (.indexFailed e)
      | .ok m1 =>
        if j.closed then .ok (m1, closed ++ [j], j)
        else joinLoop m1 closed j rest

/-- One iteration of `join_way_soup`'s main loop, for one input way. -/
def soupStep (st : SoupState) (way : Way) : Except SoupError SoupState :=
  if way.closed then .ok ⟨st.closed_ways ++ [way], st.endpoints⟩
  else
    let to_join_to := get_from_either_end st.endpoints way
    if to_join_to.isEmpty then
      match add_way st.endpoints way with
      | .error e => .error (.indexFailed e)
      | .ok m1 => .ok ⟨st.closed_ways, m1⟩
    else
      match joinLoop st.endpoints st.closed_ways way to_join_to with
      | .error e => .error e
      | .ok (m1, closed1, joined) =>
        if joined.closed then .ok ⟨closed1, m1⟩
        else
          match add_way m1 joined with
          | .error e => .error (.indexFailed e)
          | .ok m2 => .ok ⟨closed1, m2⟩

/-- The main loop of `join_way_soup`, over the remaining input ways. -/
def soupFold : SoupState → List Way → Except SoupError SoupState
  | st, [] => .ok st
  | st, w :: rest =>
    match soupStep st w with
    | .error e => .error e
    | .ok st1 => soupFold st1 rest

/-- `join_way_soup(ways)`: run the loop from an empty state, then fail with
`UnclosedBoundary` when the index still holds registrations
(`if endpoints_to_ways.number_of_endpoints(): raise`). -/
def join_way_soup (ways : List Way) : Except SoupError (List Way) :=
  match soupFold ⟨[], []⟩ ways with
  | .error e => .error e
  | .ok st =>
    if number_of_endpoints st.endpoints ≠ 0 then .error .unclosedBoundary
    else .ok st.closed_ways

/-! ## `Relation` and the polymorphic element variant

A relation's `children` is an ordered list of (child, role) pairs where the
child is a `Node`, `Way` or `Relation`; we embed the three classes as one
variant type.  `get_element_name` is the discriminator string the source
dispatches on. -/

inductive Element where
  | node (n : Node)
  | way (w : Way)
  | relation (relation_id : String) (children : List (Element × String))
      (tags : List (String × String))

def Element.get_element_name : Element → String
  | .node _ => "node"
  | .way _ => "way"
  | .relation _ _ _ => "relation"

/-- `Relation.way_iterator(inner)`, over a relation's children list.  The
two `continue` guards filter by role (inner side keeps exactly
`enclave`/`inner`; outer side skips any non-empty role other than `outer`,
since `if role and role != 'outer': continue`), then the kind dispatch
yields a way child or recurses into a relation child. -/
def way_iterator (inner : Bool) : List (Element × String) → List Way
  | [] => []
  | (child, role) :: rest =>
    if inner ∧ ¬(role = "enclave" ∨ role = "inner") then
      way_iterator inner rest
    else if ¬inner ∧ (role ≠ "" ∧ role ≠ "outer") then
      way_iterator inner rest
    else
      (match child with
       | .way w => [w]
       | .relation _ cs _ => way_iterator inner cs
       | .node _ => []) ++ way_iterator inner rest
termination_by l => sizeOf l
decreasing_by
  all_goals simp_wf
  all_goals simp_arith

/-- The boundary extractor as the spec's words describe it ("yields exactly
the way-children, recursively through sub-relations, depth-first, in child
order, whose role is exactly `enclave` or `inner`" for the inner side,
"empty or exactly `outer`" for the outer side; other roles and wrong-side
children excluded): a positive role predicate selects a child, selected way
children are yielded and selected relation children are expanded. -/
def roleOnSide (inner : Bool) (role : String) : Bool :=
  if inner then role == "enclave" || role == "inner"
  else role == "" || role == "outer"

def wayIteratorSpec (inner : Bool) : List (Element × String) → List Way
  | [] => []
  | (child, role) :: rest =>
    (if roleOnSide inner role then
      (match child with
       | .way w => [w]
       | .relation _ cs _ => wayIteratorSpec inner cs
       | .node _ => [])
     else []) ++ wayIteratorSpec inner rest
termination_by l => sizeOf l
decreasing_by
  all_goals simp_wf
  all_goals simp_arith

/-! ## `OSMXMLParser`: resolver session state and event handling

The session holds the ordered top-level list, the "current" element being
built, and the three identity maps.  The external fetch
(`fetch_osm_element`, out-of-scope HTTP/cache code) is a parameter
`fetch : ElemKind → String → Option Element`.  A diagnostic written to
`sys.stderr` is recorded in `stderr_log`.

Python objects are aliased: the current element, its identity-map entry and
the top-level list entry are one mutable object.  The embedding updates the
current element and writes it back to its identity map on every mutation,
which preserves every observation the claims make (map lookups, children
lists, error behavior). -/

inductive ElemKind where
  | node
  | way
  | relation
deriving DecidableEq, Repr

structure OSMXMLParser where
  top_level_elements : List (Option Element)
  current_top_level_element : Option Element
  known_nodes : List (String × Element)
  known_ways : List (String × Element)
  known_relations : List (String × Element)
  stderr_log : List String

/-- The dictionary literal `{'node': self.known_nodes, 'way': …,
'relation': …}[element_type]`. -/
def OSMXMLParser.kindMap (p : OSMXMLParser) : ElemKind → List (String × Element)
  | .node => p.known_nodes
  | .way => p.known_ways
  | .relation => p.known_relations

/-- Writing the selected identity map back (Python mutates it in place). -/
def OSMXMLParser.setKindMap (p : OSMXMLParser) :
    ElemKind → List (String × Element) → OSMXMLParser
  | .node, d => { p with known_nodes := d }
  | .way, d => { p with known_ways := d }
  | .relation, d => { p with known_relations := d }

/-- `get_known_or_fetch(element_type, element_id)`: consult the session map
for the kind first; on a miss invoke the external fetch, returning `None`
unchanged when it finds nothing and caching the element on success.
(Python's `element_id = str(element_id)` is a no-op here: ids are strings.) -/
def get_known_or_fetch (fetch : ElemKind → String → Option Element)
    (p : OSMXMLParser) (k : ElemKind) (eid : String) :
    Option Element × OSMXMLParser :=
  let d := p.kindMap k
  match dictLookup d eid with
  | some o => (some o, p)
  | none =>
    match fetch k eid with
    | none => (none, p)
    | some o => (some o, p.setKindMap k (dictInsert d eid o))

/-- Failure modes of event handling: `UnexpectedElementException` (carrying
the offending element name), a missing XML attribute (`KeyError`), the
string raises for an unknown member type / unhandled sub-element, and the
fatal "A node (…) was referenced that couldn't be found". `kindMismatch` is
an embedding artifact: `nd` handling appends the resolved object to
`way.nodes`; for a fetch that returns a non-node under the node kind
(impossible for the real fetcher) the embedding reports it instead of
storing an ill-kinded object. -/
inductive ParseError where
  | unexpectedElement (element_name : String)
  | keyError (attr_name : String)
  | unknownMemberType (member_type : String)
  | unhandledElement (element_name : String)
  | missingReference (ref : String)
  | kindMismatch (ref : String)
deriving DecidableEq, Repr

/-- `attr['key']`: `KeyError` when the attribute is absent. -/
def attrGet (attrs : List (String × String)) (key : String) :
    Except ParseError String :=
  match dictLookup attrs key with
  | some v => .ok v
  | none => .error (.keyError key)

/-- The identifier a model object was registered under at creation. -/
def Element.elemId : Element → String
  | .node n => n.node_id
  | .way w => w.way_id.getD ""
  | .relation rid _ _ => rid

def Element.elemKind : Element → ElemKind
  | .node _ => .node
  | .way _ => .way
  | .relation _ _ _ => .relation

/-- `VALID_RELATION_MEMBERS` (and `VALID_TOP_LEVEL_ELEMENTS`) membership,
mapping the type string to the kind. -/
def strToKind : String → Option ElemKind
  | "node" => some .node
  | "way" => some .way
  | "relation" => some .relation
  | _ => none

/-- Mutate the current top-level element and write it back to its identity
map (Python mutates the one shared object in place). -/
def updateCurrent (p : OSMXMLParser) (f : Element → Element) : OSMXMLParser :=
  match p.current_top_level_element with
  | none => p
  | some e =>
    let e1 := f e
    let p1 := { p with current_top_level_element := some e1 }
    p1.setKindMap e.elemKind (dictInsert (p1.kindMap e.elemKind) e.elemId e1)

/-- `self.current_top_level_element.tags[k] = v`. -/
def Element.withTag (e : Element) (k v : String) : Element :=
  match e with
  | .node n => .node { n with tags := dictInsert n.tags k v }
  | .way w => .way { w with tags := dictInsert w.tags k v }
  | .relation rid cs tags => .relation rid cs (dictInsert tags k v)

/-- `self.current_top_level_element.children.append((member, role))`. -/
def Element.withChild (e : Element) (m : Element) (role : String) : Element :=
  match e with
  | .relation rid cs tags => .relation rid (cs ++ [(m, role)]) tags
  | other => other

/-- `self.current_top_level_element.nodes.append(node)`. -/
def Element.withNode (e : Element) (n : Node) : Element :=
  match e with
  | .way w => .way { w with nodes := w.nodes ++ [n] }
  | other => other

/-- `OSMXMLParser.startElement(name, attr)`, branch for branch from the
source: ignored tags pass; a top-level element must not nest
(`raise_if_sub_level`), is created from its attributes and registered; a
sub-element requires a current element (`raise_if_top_level`); `tag` sets a
tag; `member` (relation parent only) validates the member type, resolves
known-or-fetch, appends (member, role) on success and logs the omission to
stderr on failure; `nd` (way parent only) resolves the node and fails with
the missing-reference error when it cannot be found. -/
def startElement (fetch : ElemKind → String → Option Element)
    (p : OSMXMLParser) (name : String) (attrs : List (String × String)) :
    Except ParseError OSMXMLParser :=
  if name = "osm" ∨ name = "note" ∨ name = "meta" then .ok p
  else if name = "node" ∨ name = "relation" ∨ name = "way" then
    if p.current_top_level_element.isSome then
      .error (.unexpectedElement name)
    else if name = "node" then do
      let node_id ← attrGet attrs "id"
      let lat ← attrGet attrs "lat"
      let lon ← attrGet attrs "lon"
      let e := Element.node ⟨node_id, lat, lon, []⟩
      .ok { p with current_top_level_element := some e,
                   known_nodes := dictInsert p.known_nodes node_id e }
    else if name = "way" then do
      let way_id ← attrGet attrs "id"
      let e := Element.way ⟨some way_id, [], []⟩
      .ok { p with current_top_level_element := some e,
                   known_ways := dictInsert p.known_ways way_id e }
    else do
      let relation_id ← attrGet attrs "id"
      let e := Element.relation relation_id [] []
      .ok { p with current_top_level_element := some e,
                   known_relations := dictInsert p.known_relations relation_id e }
  else
    match p.current_top_level_element with
    | none => .error (.unexpectedElement name)
    | some cur =>
      if name = "tag" then do
        let k ← attrGet attrs "k"
        let v ← attrGet attrs "v"
        .ok (updateCurrent p (fun e => e.withTag k v))
      else if name = "member" then
        if cur.get_element_name ≠ "relation" then
          .error (.unexpectedElement name)
        else do
          let member_type ← attrGet attrs "type"
          match strToKind member_type with
          | none => .error (.unknownMemberType member_type)
          | some mk => do
            let ref ← attrGet attrs "ref"
            match get_known_or_fetch fetch p mk ref with
            | (some member, p1) => do
              let role ← attrGet attrs "role"
              .ok (updateCurrent p1 (fun e => e.withChild member role))
            | (none, p1) =>
              .ok { p1 with stderr_log := p1.stderr_log ++
                ["Ignoring member " ++ member_type ++ "(" ++ ref ++
                 ") that couldn't be found"] }
      else if name = "nd" then
        if cur.get_element_name ≠ "way" then
          .error (.unexpectedElement name)
        else do
          let ref ← attrGet attrs "ref"
          match get_known_or_fetch fetch p .node ref with
          | (none, _) => .error (.missingReference ref)
          | (some (.node n), p1) => .ok (updateCurrent p1 (fun e => e.withNode n))
          | (some _, _) => .error (.kindMismatch ref)
      else .error (.unhandledElement name)

/-- `OSMXMLParser.endElement(name)`: append the current element to the
top-level list and clear it. -/
def endElement (p : OSMXMLParser) (name : String) : OSMXMLParser :=
  if name = "node" ∨ name = "relation" ∨ name = "way" then
    { p with top_level_elements :=
               p.top_level_elements ++ [p.current_top_level_element],
             current_top_level_element := none }
  else p

/-! ## Store-passing rendering of the joining pass (for the frame claim)

Python passes `Way` objects by reference and `Way.join` builds a fresh
object (`Way(None, new_nodes)`) from fresh lists; neither `join` nor
`join_way_soup` assigns to any field of an input way.  To make that
observable, this second rendering of the same source code makes the object
store explicit: a store is a list of `Way` records, a way is referred to by
its store address (its index), `Way(None, new_nodes)` appends a fresh
record, and every other step threads the store unchanged — exactly where
the source has no field assignment.  The Endpoint Index here maps an
endpoint id to the address of the registered way. -/

/-- The object store: address = index.  Python references are always valid;
theorems carry validity hypotheses for the input addresses. -/
abbrev Store : Type := List Way

/-- Dereference an address. -/
def lookupW (σ : Store) (a : Nat) : Way := σ.getD a default

/-- The Endpoint Index over addresses. -/
abbrev EMH : Type := List (String × Nat)

/-- The inner candidate loop of `join_way_soup`, store-passing: each
successful `joined.join(existing_way)` allocates the fresh result way. -/
def joinLoopH : Store → EMH → List Nat → Nat → List Nat →
    Except SoupError (Store × EMH × List Nat × Nat)
  | σ, m, closed, joined, [] => .ok (σ, m, closed, joined)
  | σ, m, closed, joined, existing :: rest =>
    match (lookupW σ joined).join (lookupW σ existing) with
    | .error e => .error (.joinFailed e)
    | .ok w =>
      let σ1 := σ ++ [w]
      let jaddr := σ.length
      match removeWayKeyed m (lookupW σ existing) with
      | .error e => .error (.indexFailed e)
      | .ok m1 =>
        if w.closed then .ok (σ1, m1, closed ++ [jaddr], jaddr)
        else joinLoopH σ1 m1 closed jaddr rest

/-- One iteration of the main loop, store-passing. -/
def soupStepH (σ : Store) (closed : List Nat) (m : EMH) (a : Nat) :
    Except SoupError (Store × List Nat × EMH) :=
  let way := lookupW σ a
  if way.closed then .ok (σ, closed ++ [a], m)
  else
    let to_join_to := getFromEitherEndKeyed m way
    if to_join_to.isEmpty then
      match addWayKeyed m way a with
      | .error e => .error (.indexFailed e)
      | .ok m1 => .ok (σ, closed, m1)
    else
      match joinLoopH σ m closed a to_join_to with
      | .error e => .error e
      | .ok (σ1, m1, closed1, jaddr) =>
        if (lookupW σ1 jaddr).closed then .ok (σ1, closed1, m1)
        else
          match addWayKeyed m1 (lookupW σ1 jaddr) jaddr with
          | .error e => .error (.indexFailed e)
          | .ok m2 => .ok (σ1, closed1, m2)

/-- The main loop over input addresses, store-passing. -/
def soupFoldH : Store → List Nat → EMH → List Nat →
    Except SoupError (Store × List Nat × EMH)
  | σ, closed, m, [] => .ok (σ, closed, m)
  | σ, closed, m, a :: rest =>
    match soupStepH σ closed m a with
    | .error e => .error e
    | .ok (σ1, closed1, m1) => soupFoldH σ1 closed1 m1 rest

/-- `join_way_soup`, store-passing: takes the store and the addresses of
the input ways, returns the final store and the addresses of the closed
rings. -/
def join_way_soupH (σ : Store) (addrs : List Nat) :
    Except SoupError (Store × List Nat) :=
  match soupFoldH σ [] [] addrs with
  | .error e => .error e
  | .ok (σ1, closed, m) =>
    if m.length ≠ 0 then .error .unclosedBoundary
    else .ok (σ1, closed)

/-! ## Concrete test data (used by witnesses and the end-to-end claims) -/

instance {ε α : Type} [DecidableEq ε] [DecidableEq α] :
    DecidableEq (Except ε α) := fun x y =>
  match x, y with
  | .ok a, .ok b =>
    if h : a = b then .isTrue (by rw [h]) else .isFalse (by
      intro hc; cases hc; exact h rfl)
  | .error a, .error b =>
    if h : a = b then .isTrue (by rw [h]) else .isFalse (by
      intro hc; cases hc; exact h rfl)
  | .ok _, .error _ => .isFalse (by intro hc; cases hc)
  | .error _, .ok _ => .isFalse (by intro hc; cases hc)

/-- Point A of the spec's end-to-end triangle scenario. -/
def nA : Node := ⟨"A", "0", "0", []⟩

def nB : Node := ⟨"B", "0", "1", []⟩

def nC : Node := ⟨"C", "1", "0", []⟩

/-- W1 with points A→B. -/
def w1 : Way := ⟨some "1", [nA, nB], []⟩

/-- W2 with points B→C. -/
def w2 : Way := ⟨some "2", [nB, nC], []⟩

/-- W3 with points C→A. -/
def w3 : Way := ⟨some "3", [nC, nA], []⟩

/-- The rings the six input orderings of the triangle produce. -/
def ringABCA : Way := ⟨none, [nA, nB, nC, nA], []⟩

def ringBCAB : Way := ⟨none, [nB, nC, nA, nB], []⟩

def ringCABC : Way := ⟨none, [nC, nA, nB, nC], []⟩

/-- An index state reached by `add_way` on the empty index with W1
(A→B): both endpoints map to W1. -/
def em7 : EM := [("A", w1), ("B", w1)]

/-- A way sharing both endpoints with W1 (the second half of a 2-way
loop). -/
def w7 : Way := ⟨some "7", [nB, nA], []⟩

/-! ## Helper lemmas -/

theorem closed_eq_false_iff (w : Way) :
    w.closed = false ↔ w.first.node_id ≠ w.last.node_id := by
  simp [Way.closed, nodeEq]

theorem nodeEq_iff (a b : Node) : nodeEq a b = true ↔ a.node_id = b.node_id := by
  simp [nodeEq]

theorem tail_ne_nil_of_open (w : Way) (h : w.nodes ≠ [])
    (hc : w.closed = false) : w.nodes.tail ≠ [] := by
  match hw : w.nodes with
  | [] => exact absurd hw h
  | [x] =>
    exfalso
    rw [closed_eq_false_iff] at hc
    apply hc
    simp [Way.first, Way.last, hw]
  | x :: y :: t => simp

theorem way_first_eq (w : Way) (x : Node) (t : List Node)
    (h : w.nodes = x :: t) : w.first = x := by
  simp [Way.first, h]

theorem way_last_eq (w : Way) (h : w.nodes ≠ []) :
    w.last = w.nodes.getLast h := by
  simp [Way.last, List.getLast?_eq_getLast _ h]

/-- C2: `Way.join` fails with the already-closed error whenever either
operand is closed, fails with the no-common-endpoint error whenever both
operands are open but share no endpoint, and succeeds (raises nothing) in
every other case, i.e. when both are open and share an endpoint. -/
theorem join_error_contract (a b : Way) (ha : a.nodes ≠ []) (hb : b.nodes ≠ []) :
    (a.closed = true ∨ b.closed = true → a.join b = .error .alreadyClosed) ∧
    (a.closed = false → b.closed = false → sharesEndpoint a b = false →
      a.join b = .error .noCommonEndpoint) ∧
    (a.closed = false → b.closed = false → sharesEndpoint a b = true →
      ∃ w, a.join b = .ok w) := by
  refine ⟨?_, ?_, ?_⟩
  · intro h
    rcases h with h | h
    · simp [Way.join, h]
    · by_cases hac : a.closed <;> simp [Way.join, hac, h]
  · intro hac hbc hs
    simp only [sharesEndpoint, Bool.or_eq_false_iff] at hs
    simp [Way.join, hac, hbc, hs.1.1.1, hs.1.1.2, hs.1.2, hs.2]
  · intro hac hbc hs
    by_cases h1 : nodeEq a.first b.first
    · exact ⟨⟨none, b.nodes.reverse.dropLast ++ a.nodes, []⟩,
        by simp [Way.join, hac, hbc, h1]⟩
    · by_cases h2 : nodeEq a.first b.last
      · exact ⟨⟨none, b.nodes.dropLast ++ a.nodes, []⟩,
          by simp [Way.join, hac, hbc, h1, h2]⟩
      · by_cases h3 : nodeEq a.last b.first
        · exact ⟨⟨none, a.nodes.dropLast ++ b.nodes, []⟩,
            by simp [Way.join, hac, hbc, h1, h2, h3]⟩
        · by_cases h4 : nodeEq a.last b.last
          · exact ⟨⟨none, a.nodes.dropLast ++ b.nodes.reverse, []⟩,
              by simp [Way.join, hac, hbc, h1, h2, h3, h4]⟩
          · exfalso
            simp [sharesEndpoint, h1, h2, h3, h4] at hs

/-- C2 witness: the success case of the contract at the concrete open ways
W1 (A→B) and W2 (B→C), which share endpoint B: no error is raised. -/
theorem join_error_contract_witness :
    ∃ w, Way.join ⟨some "1", [⟨"A", "", "", []⟩, ⟨"B", "", "", []⟩], []⟩
      ⟨some "2", [⟨"B", "", "", []⟩, ⟨"C", "", "", []⟩], []⟩ = .ok w :=
  (join_error_contract
    ⟨some "1", [⟨"A", "", "", []⟩, ⟨"B", "", "", []⟩], []⟩
    ⟨some "2", [⟨"B", "", "", []⟩, ⟨"C", "", "", []⟩], []⟩
    (by decide) (by decide)).2.2 (by decide) (by decide) (by decide)

theorem reverse_dropLast_eq {α : Type} (l : List α) :
    l.reverse.dropLast = l.tail.reverse := by
  have h := List.tail_reverse l.reverse
  rw [List.reverse_reverse] at h
  rw [h, List.reverse_reverse]

theorem head?_of_append_ne_nil {α : Type} (xs ys : List α) (h : xs ≠ []) :
    (xs ++ ys).head? = xs.head? := by
  cases xs <;> simp_all

theorem getLast?_of_append_ne_nil {α : Type} (xs ys : List α) (h : ys ≠ []) :
    (xs ++ ys).getLast? = ys.getLast? := by
  rw [List.getLast?_append, List.getLast?_eq_getLast ys h]
  rfl

theorem getLast?_tail {α : Type} (l : List α) (h : l.tail ≠ []) :
    l.tail.getLast? = l.getLast? := by
  match l with
  | [] => simp at h
  | [x] => simp at h
  | x :: y :: t => simp [List.getLast?_cons_cons]

theorem head?_dropLast {α : Type} (l : List α) (h : l.tail ≠ []) :
    l.dropLast.head? = l.head? := by
  match l with
  | [] => simp at h
  | [x] => simp at h
  | x :: y :: t => simp [List.dropLast]

theorem dropLast_ne_nil {α : Type} (l : List α) (h : l.tail ≠ []) :
    l.dropLast ≠ [] := by
  match l with
  | [] => simp at h
  | [x] => simp at h
  | x :: y :: t => simp [List.dropLast]

theorem two_nodes_of_open (w : Way) (h : w.nodes ≠ []) (hc : w.closed = false) :
    ∃ x y t, w.nodes = x :: y :: t := by
  have ht := tail_ne_nil_of_open w h hc
  match hw : w.nodes with
  | [] => exact absurd hw h
  | [x] => rw [hw] at ht; simp at ht
  | x :: y :: t => exact ⟨x, y, t, rfl⟩

theorem nodes_first_cons (w : Way) (h : w.nodes ≠ []) :
    w.nodes = w.first :: w.nodes.tail := by
  cases hw : w.nodes with
  | nil => exact absurd hw h
  | cons x t => simp [Way.first, hw]

theorem ids_first_cons (w : Way) (h : w.nodes ≠ []) :
    (w.ids : Multiset String) =
      {w.first.node_id} + ↑(w.nodes.tail.map Node.node_id) := by
  conv_lhs => rw [Way.ids, nodes_first_cons w h]
  simp [Multiset.singleton_add, Multiset.cons_coe]

theorem ids_dropLast (w : Way) (h : w.nodes ≠ []) :
    (w.ids : Multiset String) =
      ↑(w.nodes.dropLast.map Node.node_id) + {w.last.node_id} := by
  rw [way_last_eq w h, Way.ids]
  conv_lhs => rw [← List.dropLast_append_getLast h]
  rw [List.map_append, ← Multiset.coe_add]
  simp

/-- C1: for open ways A and B sharing at least one endpoint, `A.join(B)`
succeeds with a way that carries every point of A and B with the spliced
shared point appearing exactly once (its identifier multiset plus one copy
of the splice point equals the two input multisets combined), whose
first/last points are the two unshared ends when exactly one endpoint pair
is shared (and which is a closed way when both are shared), and whose
identifier is unset. -/
theorem join_correct (a b : Way) (ha : a.nodes ≠ []) (hb : b.nodes ≠ [])
    (hac : a.closed = false) (hbc : b.closed = false)
    (hs : sharesEndpoint a b = true) :
    ∃ w, a.join b = .ok w ∧ w.way_id = none ∧
      (↑w.ids + {spliceId a b} : Multiset String) = ↑a.ids + ↑b.ids ∧
      (sharesBothEnds a b = true → w.closed = true) ∧
      (sharesBothEnds a b = false →
        w.closed = false ∧ (w.first.node_id, w.last.node_id) = freeEnds a b) := by
  have hat : a.nodes.tail ≠ [] := tail_ne_nil_of_open a ha hac
  have hbt : b.nodes.tail ≠ [] := tail_ne_nil_of_open b hb hbc
  by_cases h1 : nodeEq a.first b.first
  · -- splice at a.first = b.first
    have hid : a.first.node_id = b.first.node_id := by simpa [nodeEq] using h1
    have hwfirst : (⟨none, b.nodes.reverse.dropLast ++ a.nodes, []⟩ : Way).first
        = b.last := by
      simp only [Way.first]
      rw [reverse_dropLast_eq, head?_of_append_ne_nil _ _ (by simpa using hbt),
        List.head?_reverse, getLast?_tail _ hbt]
      try rfl
    have hwlast : (⟨none, b.nodes.reverse.dropLast ++ a.nodes, []⟩ : Way).last
        = a.last := by
      simp only [Way.last]
      rw [getLast?_of_append_ne_nil _ _ ha]
      try rfl
    refine ⟨⟨none, b.nodes.reverse.dropLast ++ a.nodes, []⟩,
      by simp [Way.join, hac, hbc, h1], rfl, ?_, ?_, ?_⟩
    · have hw : (⟨none, b.nodes.reverse.dropLast ++ a.nodes, []⟩ : Way).ids
          = (b.nodes.tail.map Node.node_id).reverse ++ Way.ids a := by
        simp [Way.ids, reverse_dropLast_eq]
      have hsp : spliceId a b = a.first.node_id := by simp [spliceId, h1]
      rw [hw, hsp, hid, ← Multiset.coe_add, Multiset.coe_reverse,
        ids_first_cons b hb]
      abel
    · intro hboth
      have hboth' :
          (nodeEq a.first b.first = true ∧ nodeEq a.last b.last = true) ∨
          (nodeEq a.first b.last = true ∧ nodeEq a.last b.first = true) := by
        simpa [sharesBothEnds] using hboth
      have hll' : a.last.node_id = b.last.node_id := by
        rcases hboth' with ⟨_, hll⟩ | ⟨h2', _⟩
        · simpa [nodeEq] using hll
        · have e2 : a.first.node_id = b.last.node_id := by
            simpa [nodeEq] using h2'
          have e1 : b.first.node_id = b.last.node_id := by rw [← hid, e2]
          have : b.closed = true := by simp [Way.closed, nodeEq, e1]
          simp [this] at hbc
      simp only [Way.closed, nodeEq]
      rw [hwfirst, hwlast]
      simp [hll']
    · intro hnboth
      have himp :
          (nodeEq a.first b.first = true → nodeEq a.last b.last = false) ∧
          (nodeEq a.first b.last = true → nodeEq a.last b.first = false) := by
        simpa [sharesBothEnds] using hnboth
      have hne : a.last.node_id ≠ b.last.node_id := by
        simpa [nodeEq] using himp.1 h1
      constructor
      · simp only [Way.closed, nodeEq]
        rw [hwfirst, hwlast]
        simpa using Ne.symm hne
      · rw [Prod.ext_iff]
        constructor
        · rw [hwfirst]; simp [freeEnds, h1]
        · rw [hwlast]; simp [freeEnds, h1]
  · by_cases h2 : nodeEq a.first b.last
    · -- splice at a.first = b.last
      have hid : a.first.node_id = b.last.node_id := by simpa [nodeEq] using h2
      have hwfirst : (⟨none, b.nodes.dropLast ++ a.nodes, []⟩ : Way).first
          = b.first := by
        simp only [Way.first]
        rw [head?_of_append_ne_nil _ _ (dropLast_ne_nil _ hbt),
          head?_dropLast _ hbt]
        try rfl
      have hwlast : (⟨none, b.nodes.dropLast ++ a.nodes, []⟩ : Way).last
          = a.last := by
        simp only [Way.last]
        rw [getLast?_of_append_ne_nil _ _ ha]
        try rfl
      refine ⟨⟨none, b.nodes.dropLast ++ a.nodes, []⟩,
        by simp [Way.join, hac, hbc, h1, h2], rfl, ?_, ?_, ?_⟩
      · have hw : (⟨none, b.nodes.dropLast ++ a.nodes, []⟩ : Way).ids
            = b.nodes.dropLast.map Node.node_id ++ Way.ids a := by
          simp [Way.ids]
        have hsp : spliceId a b = a.first.node_id := by simp [spliceId, h1, h2]
        rw [hw, hsp, hid, ← Multiset.coe_add, ids_dropLast b hb]
        abel
      · intro hboth
        have hboth' :
            (nodeEq a.first b.first = true ∧ nodeEq a.last b.last = true) ∨
            (nodeEq a.first b.last = true ∧ nodeEq a.last b.first = true) := by
          simpa [sharesBothEnds] using hboth
        have hlf' : a.last.node_id = b.first.node_id := by
          rcases hboth' with ⟨h1', _⟩ | ⟨_, hlf⟩
          · exact absurd h1' h1
          · simpa [nodeEq] using hlf
        simp only [Way.closed, nodeEq]
        rw [hwfirst, hwlast]
        simp [hlf']
      · intro hnboth
        have himp :
            (nodeEq a.first b.first = true → nodeEq a.last b.last = false) ∧
            (nodeEq a.first b.last = true → nodeEq a.last b.first = false) := by
          simpa [sharesBothEnds] using hnboth
        have hne : a.last.node_id ≠ b.first.node_id := by
          simpa [nodeEq] using himp.2 h2
        constructor
        · simp only [Way.closed, nodeEq]
          rw [hwfirst, hwlast]
          simpa using Ne.symm hne
        · rw [Prod.ext_iff]
          constructor
          · rw [hwfirst]; simp [freeEnds, h1, h2]
          · rw [hwlast]; simp [freeEnds, h1, h2]
    · by_cases h3 : nodeEq a.last b.first
      · -- splice at a.last = b.first
        have hwfirst : (⟨none, a.nodes.dropLast ++ b.nodes, []⟩ : Way).first
            = a.first := by
          simp only [Way.first]
          rw [head?_of_append_ne_nil _ _ (dropLast_ne_nil _ hat),
            head?_dropLast _ hat]
          try rfl
        have hwlast : (⟨none, a.nodes.dropLast ++ b.nodes, []⟩ : Way).last
            = b.last := by
          simp only [Way.last]
          rw [getLast?_of_append_ne_nil _ _ hb]
          try rfl
        refine ⟨⟨none, a.nodes.dropLast ++ b.nodes, []⟩,
          by simp [Way.join, hac, hbc, h1, h2, h3], rfl, ?_, ?_, ?_⟩
        · have hw : (⟨none, a.nodes.dropLast ++ b.nodes, []⟩ : Way).ids
              = a.nodes.dropLast.map Node.node_id ++ Way.ids b := by
            simp [Way.ids]
          have hsp : spliceId a b = a.last.node_id := by
            simp [spliceId, h1, h2, h3]
          rw [hw, hsp, ← Multiset.coe_add, ids_dropLast a ha]
          abel
        · intro hboth
          have hboth' :
              (nodeEq a.first b.first = true ∧ nodeEq a.last b.last = true) ∨
              (nodeEq a.first b.last = true ∧ nodeEq a.last b.first = true) := by
            simpa [sharesBothEnds] using hboth
          rcases hboth' with ⟨h1', _⟩ | ⟨h2', _⟩
          · exact absurd h1' h1
          · exact absurd h2' h2
        · intro hnboth
          have hne : a.first.node_id ≠ b.last.node_id := by
            simpa [nodeEq] using h2
          constructor
          · simp only [Way.closed, nodeEq]
            rw [hwfirst, hwlast]
            simpa using hne
          · rw [Prod.ext_iff]
            constructor
            · rw [hwfirst]; simp [freeEnds, h1, h2, h3]
            · rw [hwlast]; simp [freeEnds, h1, h2, h3]
      · -- splice at a.last = b.last
        have h4 : nodeEq a.last b.last = true := by
          have hs' : nodeEq a.first b.first = true ∨ nodeEq a.first b.last = true
              ∨ nodeEq a.last b.first = true ∨ nodeEq a.last b.last = true := by
            simpa [sharesEndpoint, Bool.or_assoc] using hs
          rcases hs' with hc | hc | hc | hc
          · exact absurd hc h1
          · exact absurd hc h2
          · exact absurd hc h3
          · exact hc
        have hwfirst :
            (⟨none, a.nodes.dropLast ++ b.nodes.reverse, []⟩ : Way).first
            = a.first := by
          simp only [Way.first]
          rw [head?_of_append_ne_nil _ _ (dropLast_ne_nil _ hat),
            head?_dropLast _ hat]
          try rfl
        have hwlast :
            (⟨none, a.nodes.dropLast ++ b.nodes.reverse, []⟩ : Way).last
            = b.first := by
          simp only [Way.last]
          rw [getLast?_of_append_ne_nil _ _ (by simpa using hb),
            List.getLast?_reverse]
          try rfl
        refine ⟨⟨none, a.nodes.dropLast ++ b.nodes.reverse, []⟩,
          by simp [Way.join, hac, hbc, h1, h2, h3, h4], rfl, ?_, ?_, ?_⟩
        · have hw : (⟨none, a.nodes.dropLast ++ b.nodes.reverse, []⟩ : Way).ids
              = a.nodes.dropLast.map Node.node_id ++ (Way.ids b).reverse := by
            simp [Way.ids]
          have hsp : spliceId a b = a.last.node_id := by
            simp [spliceId, h1, h2, h3]
          rw [hw, hsp, ← Multiset.coe_add, Multiset.coe_reverse,
            ids_dropLast a ha]
          abel
        · intro hboth
          have hboth' :
              (nodeEq a.first b.first = true ∧ nodeEq a.last b.last = true) ∨
              (nodeEq a.first b.last = true ∧ nodeEq a.last b.first = true) := by
            simpa [sharesBothEnds] using hboth
          rcases hboth' with ⟨h1', _⟩ | ⟨h2', _⟩
          · exact absurd h1' h1
          · exact absurd h2' h2
        · intro hnboth
          have hne : a.first.node_id ≠ b.first.node_id := by
            simpa [nodeEq] using h1
          constructor
          · simp only [Way.closed, nodeEq]
            rw [hwfirst, hwlast]
            simpa using hne
          · rw [Prod.ext_iff]
            constructor
            · rw [hwfirst]; simp [freeEnds, h1, h2, h3]
            · rw [hwlast]; simp [freeEnds, h1, h2, h3]

/-- C1 witness: `join_correct` instantiated at the concrete open ways
W1 (A→B) and W2 (B→C), which share exactly the endpoint B. -/
theorem join_correct_witness :
    ∃ w, w1.join w2 = .ok w ∧ w.way_id = none ∧
      (↑w.ids + {spliceId w1 w2} : Multiset String) = ↑w1.ids + ↑w2.ids ∧
      (sharesBothEnds w1 w2 = true → w.closed = true) ∧
      (sharesBothEnds w1 w2 = false →
        w.closed = false ∧
        (w.first.node_id, w.last.node_id) = freeEnds w1 w2) :=
  join_correct w1 w2 (by decide) (by decide) (by decide) (by decide) (by decide)

/-- C4: the three open ways W1 (A→B), W2 (B→C), W3 (C→A), fed to
`join_way_soup` in each of the six input orderings, produce exactly one
closed ring of 4 points (3 distinct points, first repeated at the end),
with the Endpoint Index empty at the end of the loop. -/
theorem triangle_any_order :
    (soupFold ⟨[], []⟩ [w1, w2, w3] = .ok ⟨[ringABCA], []⟩ ∧
     join_way_soup [w1, w2, w3] = .ok [ringABCA]) ∧
    (soupFold ⟨[], []⟩ [w1, w3, w2] = .ok ⟨[ringCABC], []⟩ ∧
     join_way_soup [w1, w3, w2] = .ok [ringCABC]) ∧
    (soupFold ⟨[], []⟩ [w2, w1, w3] = .ok ⟨[ringABCA], []⟩ ∧
     join_way_soup [w2, w1, w3] = .ok [ringABCA]) ∧
    (soupFold ⟨[], []⟩ [w2, w3, w1] = .ok ⟨[ringBCAB], []⟩ ∧
     join_way_soup [w2, w3, w1] = .ok [ringBCAB]) ∧
    (soupFold ⟨[], []⟩ [w3, w1, w2] = .ok ⟨[ringCABC], []⟩ ∧
     join_way_soup [w3, w1, w2] = .ok [ringCABC]) ∧
    (soupFold ⟨[], []⟩ [w3, w2, w1] = .ok ⟨[ringBCAB], []⟩ ∧
     join_way_soup [w3, w2, w1] = .ok [ringBCAB]) ∧
    (ringABCA.nodes.length = 4 ∧ ringABCA.closed = true ∧
     ringABCA.ids.dedup.length = 3 ∧
     ringABCA.first.node_id = ringABCA.last.node_id) ∧
    (ringBCAB.nodes.length = 4 ∧ ringBCAB.closed = true ∧
     ringBCAB.ids.dedup.length = 3 ∧
     ringBCAB.first.node_id = ringBCAB.last.node_id) ∧
    (ringCABC.nodes.length = 4 ∧ ringCABC.closed = true ∧
     ringCABC.ids.dedup.length = 3 ∧
     ringCABC.first.node_id = ringCABC.last.node_id) := by
  decide

/-- C3: when `join_way_soup` returns normally the Endpoint Index holds zero
registrations at the end of the loop, and when the loop leaves any
registration (e.g. for a single isolated open way) it fails with the
unclosed-boundary error instead of returning a partial result. -/
theorem soup_completeness :
    (∀ ways res, join_way_soup ways = .ok res →
       ∃ st, soupFold ⟨[], []⟩ ways = .ok st ∧
         number_of_endpoints st.endpoints = 0 ∧ res = st.closed_ways) ∧
    (∀ ways st, soupFold ⟨[], []⟩ ways = .ok st →
       number_of_endpoints st.endpoints ≠ 0 →
       join_way_soup ways = .error .unclosedBoundary) ∧
    (∀ w, w.nodes ≠ [] → w.closed = false →
       join_way_soup [w] = .error .unclosedBoundary) := by
  refine ⟨?_, ?_, ?_⟩
  · intro ways res h
    unfold join_way_soup at h
    split at h
    · exact absurd h (by simp)
    · rename_i st hst
      split at h
      · exact absurd h (by simp)
      · rename_i hz
        refine ⟨st, hst, by omega, ?_⟩
        cases h
        rfl
  · intro ways st hf hne
    unfold join_way_soup
    rw [hf]
    simp [hne]
  · intro w h hc
    have hne : w.first.node_id ≠ w.last.node_id := (closed_eq_false_iff w).1 hc
    unfold join_way_soup soupFold soupStep
    simp [hc, get_from_either_end, getFromEitherEndKeyed, dictLookup, add_way,
      addWayKeyed, dictInsert, dictHasKey, number_of_endpoints, soupFold, hne]

theorem soup_ok_elim (ways : List Way) (res : List Way)
    (h : join_way_soup ways = .ok res) :
    ∃ st, soupFold ⟨[], []⟩ ways = .ok st ∧
      number_of_endpoints st.endpoints = 0 ∧ res = st.closed_ways := by
  unfold join_way_soup at h
  split at h
  · exact absurd h (by simp)
  · rename_i st hst
    split at h
    · exact absurd h (by simp)
    · rename_i hz
      refine ⟨st, hst, by omega, ?_⟩
      cases h
      rfl

theorem joinLoop_closed_extends (cands : List Way) :
    ∀ m closed joined res, joinLoop m closed joined cands = .ok res →
      ∃ t, res.2.1 = closed ++ t := by
  induction cands with
  | nil =>
    intro m closed joined res h
    cases h
    exact ⟨[], by simp⟩
  | cons existing rest ih =>
    intro m closed joined res h
    simp only [joinLoop] at h
    cases hj : joined.join existing with
    | error e => rw [hj] at h; cases h
    | ok j =>
      rw [hj] at h
      dsimp only at h
      cases hr : remove_way m existing with
      | error e => rw [hr] at h; cases h
      | ok m2 =>
        rw [hr] at h
        dsimp only at h
        by_cases hcl : j.closed = true
        · rw [if_pos hcl] at h
          cases h
          exact ⟨[j], rfl⟩
        · rw [if_neg hcl] at h
          exact ih m2 closed j res h

theorem soupStep_closed_ways (st : SoupState) (w : Way) (st' : SoupState)
    (h : soupStep st w = .ok st') :
    (w.closed = true → st'.closed_ways = st.closed_ways ++ [w]) ∧
    (∃ t, st'.closed_ways = st.closed_ways ++ t) := by
  unfold soupStep at h
  by_cases hw : w.closed = true
  · rw [if_pos hw] at h
    cases h
    exact ⟨fun _ => rfl, ⟨[w], rfl⟩⟩
  · rw [if_neg hw] at h
    refine ⟨fun hc => absurd hc hw, ?_⟩
    by_cases he : (get_from_either_end st.endpoints w).isEmpty = true
    · rw [if_pos he] at h
      cases ha : add_way st.endpoints w with
      | error e => rw [ha] at h; cases h
      | ok m1 =>
        rw [ha] at h
        cases h
        exact ⟨[], by simp⟩
    · rw [if_neg he] at h
      cases hl : joinLoop st.endpoints st.closed_ways w
          (get_from_either_end st.endpoints w) with
      | error e => rw [hl] at h; cases h
      | ok trip =>
        obtain ⟨m1, closed1, joined⟩ := trip
        rw [hl] at h
        dsimp only at h
        obtain ⟨t, ht⟩ := joinLoop_closed_extends _ _ _ _ _ hl
        by_cases hj : joined.closed = true
        · rw [if_pos hj] at h
          cases h
          exact ⟨t, ht⟩
        · rw [if_neg hj] at h
          cases ha : add_way m1 joined with
          | error e => rw [ha] at h; cases h
          | ok m2 =>
            rw [ha] at h
            cases h
            exact ⟨t, ht⟩

theorem soupFold_filter_sublist (ways : List Way) :
    ∀ st st', soupFold st ways = .ok st' →
      List.Sublist (st.closed_ways ++ ways.filter (fun w => w.closed))
        st'.closed_ways := by
  induction ways with
  | nil =>
    intro st st' h
    cases h
    simp
  | cons w rest ih =>
    intro st st' h
    simp only [soupFold] at h
    cases hs : soupStep st w with
    | error e => rw [hs] at h; cases h
    | ok st1 =>
      rw [hs] at h
      have hstep := soupStep_closed_ways st w st1 hs
      by_cases hw : w.closed = true
      · rw [List.filter_cons_of_pos (by simpa using hw), List.append_cons]
        rw [← hstep.1 hw]
        exact ih st1 st' h
      · rw [List.filter_cons_of_neg (by simpa using hw)]
        obtain ⟨t, ht⟩ := hstep.2
        have hsub : List.Sublist (st.closed_ways ++ rest.filter (fun w => w.closed))
            (st1.closed_ways ++ rest.filter (fun w => w.closed)) := by
          rw [ht, List.append_assoc]
          exact (List.sublist_append_right _ _).append_left st.closed_ways
        exact hsub.trans (ih st1 st' h)

theorem mem_dictInsert {α : Type} (d : List (String × α)) (k : String) (v : α)
    (p : String × α) (hp : p ∈ dictInsert d k v) : p ∈ d ∨ p = (k, v) := by
  unfold dictInsert at hp
  by_cases h : dictHasKey d k = true
  · rw [if_pos h] at hp
    obtain ⟨q, hq, hpq⟩ := List.mem_map.1 hp
    by_cases hqk : (q.1 == k) = true
    · rw [if_pos hqk] at hpq
      right
      exact hpq.symm
    · rw [if_neg hqk] at hpq
      left
      rw [← hpq]
      exact hq
  · rw [if_neg h] at hp
    rcases List.mem_append.1 hp with hp | hp
    · exact Or.inl hp
    · exact Or.inr (List.mem_singleton.1 hp)

theorem mem_dictDelete {α : Type} (d : List (String × α)) (k : String)
    (p : String × α) (hp : p ∈ dictDelete d k) : p ∈ d :=
  List.mem_of_mem_filter hp

/-- Invariant of the Endpoint Index inside `join_way_soup`: every
registered way is open. -/
def allOpen (m : EM) : Prop := ∀ p ∈ m, p.2.closed = false

theorem add_way_allOpen (m : EM) (w : Way) (m' : EM) (hm : allOpen m)
    (hw : w.closed = false) (h : add_way m w = .ok m') : allOpen m' := by
  unfold add_way addWayKeyed at h
  by_cases he : (getFromEitherEndKeyed m w).isEmpty = true
  · rw [if_pos he] at h
    cases h
    intro p hp
    rcases mem_dictInsert _ _ _ _ hp with hp | hp
    · rcases mem_dictInsert _ _ _ _ hp with hp | hp
      · exact hm p hp
      · rw [hp]; exact hw
    · rw [hp]; exact hw
  · rw [if_neg he] at h
    cases h

theorem remove_way_allOpen (m : EM) (w : Way) (m' : EM) (hm : allOpen m)
    (h : remove_way m w = .ok m') : allOpen m' := by
  unfold remove_way removeWayKeyed at h
  by_cases h1 : dictHasKey m w.first.node_id = true
  · rw [if_pos h1] at h
    dsimp only at h
    by_cases h2 : dictHasKey (dictDelete m w.first.node_id) w.last.node_id = true
    · rw [if_pos h2] at h
      cases h
      intro p hp
      exact hm p (mem_dictDelete _ _ _ (mem_dictDelete _ _ _ hp))
    · rw [if_neg h2] at h
      cases h
  · rw [if_neg h1] at h
    cases h

theorem joinLoop_allOpen (cands : List Way) :
    ∀ m closed joined m1 closed1 j1, allOpen m →
      joinLoop m closed joined cands = .ok (m1, closed1, j1) → allOpen m1 := by
  induction cands with
  | nil =>
    intro m closed joined m1 closed1 j1 hm h
    cases h
    exact hm
  | cons existing rest ih =>
    intro m closed joined m1 closed1 j1 hm h
    simp only [joinLoop] at h
    cases hj : joined.join existing with
    | error e => rw [hj] at h; cases h
    | ok j =>
      rw [hj] at h
      dsimp only at h
      cases hr : remove_way m existing with
      | error e => rw [hr] at h; cases h
      | ok m2 =>
        rw [hr] at h
        dsimp only at h
        have hm2 := remove_way_allOpen m existing m2 hm hr
        by_cases hcl : j.closed = true
        · rw [if_pos hcl] at h
          cases h
          exact hm2
        · rw [if_neg hcl] at h
          exact ih m2 closed j m1 closed1 j1 hm2 h

theorem soupStep_allOpen (st : SoupState) (w : Way) (st' : SoupState)
    (hm : allOpen st.endpoints) (h : soupStep st w = .ok st') :
    allOpen st'.endpoints := by
  unfold soupStep at h
  by_cases hw : w.closed = true
  · rw [if_pos hw] at h
    cases h
    exact hm
  · rw [if_neg hw] at h
    by_cases he : (get_from_either_end st.endpoints w).isEmpty = true
    · rw [if_pos he] at h
      cases ha : add_way st.endpoints w with
      | error e => rw [ha] at h; cases h
      | ok m1 =>
        rw [ha] at h
        cases h
        exact add_way_allOpen _ w _ hm (Bool.not_eq_true _ ▸ hw) ha
    · rw [if_neg he] at h
      cases hl : joinLoop st.endpoints st.closed_ways w
          (get_from_either_end st.endpoints w) with
      | error e => rw [hl] at h; cases h
      | ok trip =>
        obtain ⟨m1, closed1, joined⟩ := trip
        rw [hl] at h
        dsimp only at h
        have hm1 := joinLoop_allOpen _ _ _ _ _ _ _ hm hl
        by_cases hj : joined.closed = true
        · rw [if_pos hj] at h
          cases h
          exact hm1
        · rw [if_neg hj] at h
          cases ha : add_way m1 joined with
          | error e => rw [ha] at h; cases h
          | ok m2 =>
            rw [ha] at h
            cases h
            exact add_way_allOpen _ joined _ hm1 (Bool.not_eq_true _ ▸ hj) ha

theorem soupFold_allOpen (ways : List Way) :
    ∀ st st', allOpen st.endpoints → soupFold st ways = .ok st' →
      allOpen st'.endpoints := by
  induction ways with
  | nil =>
    intro st st' hm h
    cases h
    exact hm
  | cons w rest ih =>
    intro st st' hm h
    simp only [soupFold] at h
    cases hs : soupStep st w with
    | error e => rw [hs] at h; cases h
    | ok st1 =>
      rw [hs] at h
      exact ih st1 st' (soupStep_allOpen st w st1 hm hs) h

theorem soupFold_all_closed (ways : List Way) :
    ∀ acc m, (∀ w ∈ ways, w.closed = true) →
      soupFold ⟨acc, m⟩ ways = .ok ⟨acc ++ ways, m⟩ := by
  induction ways with
  | nil =>
    intro acc m _
    simp [soupFold]
  | cons w rest ih =>
    intro acc m hall
    simp only [soupFold, soupStep, hall w (List.mem_cons_self w rest), if_true]
    have := ih (acc ++ [w]) m (fun u hu => hall u (List.mem_cons_of_mem w hu))
    rw [this]
    simp

/-- C5: closed input ways pass through `join_way_soup` unchanged — they
appear in input order as a subsequence of the result — they are never
registered in the Endpoint Index (every registered way is open, at the end
of every loop prefix), and an input of closed ways only returns exactly the
input list. -/
theorem closed_passthrough :
    (∀ ways res, (∀ w ∈ ways, w.nodes ≠ []) → join_way_soup ways = .ok res →
       List.Sublist (ways.filter (fun w => w.closed)) res) ∧
    (∀ ways st, soupFold ⟨[], []⟩ ways = .ok st →
       ∀ p ∈ st.endpoints, p.2.closed = false) ∧
    (∀ ways, (∀ w ∈ ways, w.nodes ≠ [] ∧ w.closed = true) →
       join_way_soup ways = .ok ways) := by
  refine ⟨?_, ?_, ?_⟩
  · intro ways res _ h
    obtain ⟨st, hst, _, hres⟩ := soup_ok_elim ways res h
    rw [hres]
    have := soupFold_filter_sublist ways ⟨[], []⟩ st hst
    simpa using this
  · intro ways st hst
    exact soupFold_allOpen ways ⟨[], []⟩ st (fun p hp => absurd hp (by simp)) hst
  · intro ways hall
    unfold join_way_soup
    rw [soupFold_all_closed ways [] [] (fun w hw => (hall w hw).2)]
    simp [number_of_endpoints]

/-- C5 witness: a mixed run (triangle ways plus nothing closed gives the
trivial sublist) and an input of two distinct closed rings returned
unchanged. -/
theorem closed_passthrough_witness :
    List.Sublist ([w1, w2, w3].filter (fun w => w.closed)) [ringABCA] ∧
    join_way_soup [ringABCA, ringBCAB] = .ok [ringABCA, ringBCAB] := by
  constructor
  · exact closed_passthrough.1 [w1, w2, w3] [ringABCA] (by decide) (by decide)
  · exact closed_passthrough.2.2 [ringABCA, ringBCAB] (by decide)

/-- C3 witness: the triangle run returns normally with an empty index, and
a single isolated open way fails with the unclosed-boundary error. -/
theorem soup_completeness_witness :
    (∃ st, soupFold ⟨[], []⟩ [w1, w2, w3] = .ok st ∧
       number_of_endpoints st.endpoints = 0 ∧ [ringABCA] = st.closed_ways) ∧
    join_way_soup [w1] = .error .unclosedBoundary := by
  constructor
  · exact soup_completeness.1 [w1, w2, w3] [ringABCA] (by decide)
  · exact soup_completeness.2.2 w1 (by decide) (by decide)

theorem dictLookup_mem {α : Type} (d : List (String × α)) (k : String) (v : α)
    (h : dictLookup d k = some v) : (k, v) ∈ d := by
  unfold dictLookup at h
  cases hf : d.find? (fun p => p.1 == k) with
  | none => rw [hf] at h; cases h
  | some p =>
    rw [hf] at h
    cases h
    have hmem := List.mem_of_find?_eq_some hf
    have hk := List.find?_some hf
    obtain ⟨p1, p2⟩ := p
    simp only [beq_iff_eq] at hk
    rw [← hk]
    exact hmem

/-- C7 counterexample: in the reachable index state where W1 (A→B) is
registered (under both its endpoints), `get_from_either_end` applied to a
way that shares both endpoints with W1 returns the list [W1, W1] — the same
registered way listed twice, so the result is not a duplicate-free set. -/
theorem candidates_duplicate_cex :
    add_way [] w1 = .ok em7 ∧
    get_from_either_end em7 w7 = [w1, w1] ∧
    ¬ (get_from_either_end em7 w7).Nodup := by
  refine ⟨by decide, by decide, by decide⟩

/-- C7 (amended): `get_from_either_end` returns the list of the registered
ways at W's first and then W's last endpoint — 0, 1 or 2 entries, with the
same way listed twice when it is registered at both of W's endpoints — each
entry being a registered way, terminating at W's first or last point
whenever every index entry is keyed by an endpoint of its way (as every
state built by `add_way`/`remove_way` is); the lookup is pure, leaving the
index unchanged. -/
theorem candidates_spec (m : EM) (w : Way) :
    get_from_either_end m w =
      (dictLookup m w.first.node_id).toList ++
      (dictLookup m w.last.node_id).toList ∧
    (get_from_either_end m w).length ≤ 2 ∧
    (∀ u ∈ get_from_either_end m w,
       (w.first.node_id, u) ∈ m ∨ (w.last.node_id, u) ∈ m) ∧
    ((∀ p ∈ m, p.1 = p.2.first.node_id ∨ p.1 = p.2.last.node_id) →
      ∀ u ∈ get_from_either_end m w,
        u.first.node_id = w.first.node_id ∨ u.first.node_id = w.last.node_id ∨
        u.last.node_id = w.first.node_id ∨ u.last.node_id = w.last.node_id) := by
  have hsplit : get_from_either_end m w =
      (dictLookup m w.first.node_id).toList ++
      (dictLookup m w.last.node_id).toList := by
    cases h1 : dictLookup m w.first.node_id <;>
      cases h2 : dictLookup m w.last.node_id <;>
        simp [get_from_either_end, getFromEitherEndKeyed, h1, h2]
  have hmem : ∀ u ∈ get_from_either_end m w,
      (w.first.node_id, u) ∈ m ∨ (w.last.node_id, u) ∈ m := by
    intro u hu
    rw [hsplit] at hu
    rcases List.mem_append.1 hu with hu | hu
    · cases h1 : dictLookup m w.first.node_id with
      | none => rw [h1] at hu; cases hu
      | some v =>
        rw [h1] at hu
        cases hu
        · exact Or.inl (dictLookup_mem m _ _ h1)
        · rename_i hfalse; cases hfalse
    · cases h2 : dictLookup m w.last.node_id with
      | none => rw [h2] at hu; cases hu
      | some v =>
        rw [h2] at hu
        cases hu
        · exact Or.inr (dictLookup_mem m _ _ h2)
        · rename_i hfalse; cases hfalse
  refine ⟨hsplit, ?_, hmem, ?_⟩
  · rw [hsplit]
    cases dictLookup m w.first.node_id <;> cases dictLookup m w.last.node_id <;>
      simp
  · intro hinv u hu
    rcases hmem u hu with hm | hm
    · rcases hinv _ hm with he | he
      · exact Or.inl he.symm
      · exact Or.inr (Or.inr (Or.inl he.symm))
    · rcases hinv _ hm with he | he
      · exact Or.inr (Or.inl he.symm)
      · exact Or.inr (Or.inr (Or.inr he.symm))

/-- C7 witness: the amended statement applied to the index holding W1 under
both endpoints and the query way W2 (sharing endpoint B), whose single
candidate W1 indeed terminates at an endpoint of W2. -/
theorem candidates_spec_witness :
    w1.first.node_id = w2.first.node_id ∨ w1.first.node_id = w2.last.node_id ∨
    w1.last.node_id = w2.first.node_id ∨ w1.last.node_id = w2.last.node_id :=
  (candidates_spec em7 w2).2.2.2 (by decide) w1 (by decide)

theorem way_iterator_eq_spec_aux :
    ∀ (n : Nat) (inner : Bool) (children : List (Element × String)),
      sizeOf children ≤ n →
      way_iterator inner children = wayIteratorSpec inner children := by
  intro n
  induction n with
  | zero =>
    intro inner children h
    cases children with
    | nil => simp [way_iterator, wayIteratorSpec]
    | cons hd tl => simp at h
  | succ n ih =>
    intro inner children h
    match children with
    | [] => simp [way_iterator, wayIteratorSpec]
    | (child, role) :: rest =>
      have hsr : sizeOf rest ≤ n := by
        simp at h
        omega
      have hrest := ih inner rest hsr
      have hchild : ∀ rid cs tags, child = Element.relation rid cs tags →
          way_iterator inner cs = wayIteratorSpec inner cs := by
        intro rid cs tags hc
        apply ih inner cs
        subst hc
        simp at h
        omega
      rw [way_iterator.eq_def, wayIteratorSpec.eq_def]
      dsimp only
      cases inner with
      | true =>
        by_cases hrole : role = "enclave" ∨ role = "inner"
        · have hro : roleOnSide true role = true := by
            rcases hrole with hx | hx <;> simp [roleOnSide, hx]
          rw [if_neg (fun hcond => hcond.2 hrole), if_neg (by simp),
            if_pos hro, hrest]
          cases child with
          | way w => rfl
          | node nd => rfl
          | relation rid cs tags =>
            dsimp only
            rw [hchild rid cs tags rfl]
        · have hro : roleOnSide true role = false := by
            simp only [roleOnSide, if_true, Bool.or_eq_false_iff, beq_eq_false_iff_ne]
            constructor
            · intro hx; exact absurd (Or.inl hx) hrole
            · intro hx; exact absurd (Or.inr hx) hrole
          rw [if_pos ⟨rfl, hrole⟩, if_neg (by simp [hro]), hrest]
          simp
      | false =>
        by_cases hrole : role = "" ∨ role = "outer"
        · have hro : roleOnSide false role = true := by
            rcases hrole with hx | hx <;> simp [roleOnSide, hx]
          have hnot : ¬(role ≠ "" ∧ role ≠ "outer") := by
            intro hx
            rcases hrole with hy | hy
            · exact hx.1 hy
            · exact hx.2 hy
          rw [if_neg (by simp), if_neg (fun hcond => hnot hcond.2),
            if_pos hro, hrest]
          cases child with
          | way w => rfl
          | node nd => rfl
          | relation rid cs tags =>
            dsimp only
            rw [hchild rid cs tags rfl]
        · have hand : role ≠ "" ∧ role ≠ "outer" := by
            constructor
            · intro hx; exact hrole (Or.inl hx)
            · intro hx; exact hrole (Or.inr hx)
          have hro : roleOnSide false role = false := by
            simp [roleOnSide, hand.1, hand.2]
          rw [if_neg (by simp), if_pos ⟨by simp, hand⟩,
            if_neg (by simp [hro]), hrest]
          simp

/-- C6: the boundary extractor equals its specification: with the inner
side it yields exactly the way-children (recursively through sub-relations,
depth-first, in child order) whose role is exactly `enclave` or `inner`,
and with the outer side exactly those whose role is empty or exactly
`outer`; children with any other role, on the wrong side, and non-way
non-relation children contribute nothing. -/
theorem way_iterator_role_filtering (inner : Bool)
    (children : List (Element × String)) :
    way_iterator inner children = wayIteratorSpec inner children :=
  way_iterator_eq_spec_aux (sizeOf children) inner children (Nat.le_refl _)

theorem kindMap_setKindMap (p : OSMXMLParser) (k : ElemKind)
    (d : List (String × Element)) : (p.setKindMap k d).kindMap k = d := by
  cases k <;> rfl

theorem dictLookup_map_overwrite {α : Type} (k : String) (v : α) :
    ∀ d : List (String × α),
      dictLookup (d.map (fun p => if p.1 == k then (k, v) else p)) k =
        if dictHasKey d k then some v else none := by
  intro d
  induction d with
  | nil => simp [dictLookup, dictHasKey]
  | cons hd tl ih =>
    by_cases hh : (hd.1 == k) = true
    · simp [dictLookup, dictHasKey, hh, List.find?]
    · have hh' : (hd.1 == k) = false := by simpa using hh
      simp only [dictHasKey, List.any_cons, hh', Bool.false_or]
      simpa [dictLookup, List.find?, hh', dictHasKey] using ih

theorem dictLookup_append_of_not_has {α : Type} (k : String) (v : α) :
    ∀ d : List (String × α), dictHasKey d k = false →
      dictLookup (d ++ [(k, v)]) k = some v := by
  intro d
  induction d with
  | nil => intro _; simp [dictLookup, List.find?]
  | cons hd tl ih =>
    intro h
    simp only [dictHasKey, List.any_cons, Bool.or_eq_false_iff] at h
    simp only [List.cons_append, dictLookup, List.find?, h.1]
    exact ih h.2

theorem dictLookup_insert_self {α : Type} (d : List (String × α)) (k : String)
    (v : α) : dictLookup (dictInsert d k v) k = some v := by
  unfold dictInsert
  by_cases h : dictHasKey d k = true
  · rw [if_pos h, dictLookup_map_overwrite, if_pos h]
  · rw [if_neg h]
    exact dictLookup_append_of_not_has k v d (Bool.not_eq_true _ ▸ h)

/-- C8: within one resolver session, the session map is consulted first
(a hit returns the cached element with the state unchanged, whatever the
external fetch would say), a miss with a successful fetch caches the
element under its (kind, id), and looking the same (kind, id) up again
returns the identical cached element and leaves the session unchanged. -/
theorem resolver_identity (fetch : ElemKind → String → Option Element)
    (p : OSMXMLParser) (k : ElemKind) (eid : String) :
    (∀ o, dictLookup (p.kindMap k) eid = some o →
       get_known_or_fetch fetch p k eid = (some o, p)) ∧
    (∀ o, dictLookup (p.kindMap k) eid = none → fetch k eid = some o →
       get_known_or_fetch fetch p k eid =
         (some o, p.setKindMap k (dictInsert (p.kindMap k) eid o)) ∧
       dictLookup
         ((p.setKindMap k (dictInsert (p.kindMap k) eid o)).kindMap k) eid
         = some o) ∧
    (get_known_or_fetch fetch (get_known_or_fetch fetch p k eid).2 k eid =
       get_known_or_fetch fetch p k eid) := by
  refine ⟨?_, ?_, ?_⟩
  · intro o h
    unfold get_known_or_fetch
    dsimp only
    rw [h]
  · intro o h hf
    constructor
    · unfold get_known_or_fetch
      dsimp only
      rw [h, hf]
    · rw [kindMap_setKindMap]
      exact dictLookup_insert_self _ _ _
  · cases hl : dictLookup (p.kindMap k) eid with
    | some o =>
      have h1 : get_known_or_fetch fetch p k eid = (some o, p) := by
        unfold get_known_or_fetch; dsimp only; rw [hl]
      rw [h1]
      exact h1
    | none =>
      cases hf : fetch k eid with
      | none =>
        have h1 : get_known_or_fetch fetch p k eid = (none, p) := by
          unfold get_known_or_fetch; dsimp only; rw [hl, hf]
        rw [h1]
        exact h1
      | some o =>
        have h1 : get_known_or_fetch fetch p k eid =
            (some o, p.setKindMap k (dictInsert (p.kindMap k) eid o)) := by
          unfold get_known_or_fetch; dsimp only; rw [hl, hf]
        rw [h1]
        have h2 : dictLookup
            ((p.setKindMap k (dictInsert (p.kindMap k) eid o)).kindMap k) eid
            = some o := by
          rw [kindMap_setKindMap]
          exact dictLookup_insert_self _ _ _
        unfold get_known_or_fetch
        dsimp only
        rw [h2]

/-- C8 witness: a fresh session, a fetch that finds node 5: the first
lookup caches it and the second returns the identical cached element. -/
theorem resolver_identity_witness :
    get_known_or_fetch (fun _ _ => some (Element.node ⟨"5", "1", "2", []⟩))
        ⟨[], none, [], [], [], []⟩ ElemKind.node "5" =
      (some (Element.node ⟨"5", "1", "2", []⟩),
        OSMXMLParser.setKindMap ⟨[], none, [], [], [], []⟩ ElemKind.node
          (dictInsert
            (OSMXMLParser.kindMap ⟨[], none, [], [], [], []⟩ ElemKind.node)
            "5" (Element.node ⟨"5", "1", "2", []⟩))) ∧
    dictLookup
      ((OSMXMLParser.setKindMap ⟨[], none, [], [], [], []⟩ ElemKind.node
        (dictInsert
          (OSMXMLParser.kindMap ⟨[], none, [], [], [], []⟩ ElemKind.node)
          "5" (Element.node ⟨"5", "1", "2", []⟩))).kindMap ElemKind.node) "5"
      = some (Element.node ⟨"5", "1", "2", []⟩) :=
  (resolver_identity (fun _ _ => some (Element.node ⟨"5", "1", "2", []⟩))
    ⟨[], none, [], [], [], []⟩ ElemKind.node "5").2.1
    (Element.node ⟨"5", "1", "2", []⟩) rfl rfl


/-- C9: a relation `member` event whose referenced element cannot be
resolved (neither in the session map nor by the external fetch) is
tolerated — handling returns normally, the relation's children are left
without the member and the only change is the diagnostic appended to the
stderr log — whereas a way `nd` event whose node cannot be resolved fails
with the missing-reference error. -/
theorem missing_reference_contract
    (fetch : ElemKind → String → Option Element) (p : OSMXMLParser)
    (attrs : List (String × String)) :
    (∀ rid cs tags mt mk ref,
       p.current_top_level_element = some (.relation rid cs tags) →
       attrGet attrs "type" = .ok mt → strToKind mt = some mk →
       attrGet attrs "ref" = .ok ref →
       dictLookup (p.kindMap mk) ref = none → fetch mk ref = none →
       startElement fetch p "member" attrs =
         .ok { p with stderr_log := p.stderr_log ++
           ["Ignoring member " ++ mt ++ "(" ++ ref ++
            ") that couldn't be found"] }) ∧
    (∀ w ref,
       p.current_top_level_element = some (.way w) →
       attrGet attrs "ref" = .ok ref →
       dictLookup p.known_nodes ref = none → fetch .node ref = none →
       startElement fetch p "nd" attrs = .error (.missingReference ref)) := by
  constructor
  · intro rid cs tags mt mk ref hcur hmt hmk href hlook hfetch
    have hg : get_known_or_fetch fetch p mk ref = (none, p) := by
      unfold get_known_or_fetch
      dsimp only
      rw [hlook, hfetch]
    simp only [startElement, hcur, hmt, hmk, href, hg, Element.get_element_name,
      Bind.bind, Except.bind]
    simp [hcur]
  · intro w ref hcur href hlook hfetch
    have hg : get_known_or_fetch fetch p .node ref = (none, p) := by
      unfold get_known_or_fetch
      dsimp only [OSMXMLParser.kindMap]
      rw [hlook, hfetch]
    simp only [startElement, hcur, href, hg, Element.get_element_name,
      Bind.bind, Except.bind]
    simp [hcur]

/-- C9 witness: a current relation with a member of type `way`, ref 42,
that no fetch can find, is skipped with the diagnostic logged; a current
way with an unresolvable `nd` ref 42 fails. -/
theorem missing_reference_contract_witness :
    startElement (fun _ _ => none)
        ⟨[], some (Element.relation "R" [] []), [], [], [], []⟩ "member"
        [("type", "way"), ("ref", "42"), ("role", "outer")] =
      .ok ⟨[], some (Element.relation "R" [] []), [], [], [],
        ["Ignoring member way(42) that couldn't be found"]⟩ ∧
    startElement (fun _ _ => none)
        ⟨[], some (Element.way ⟨some "W", [], []⟩), [], [], [], []⟩ "nd"
        [("ref", "42")] = .error (.missingReference "42") := by
  constructor
  · exact (missing_reference_contract (fun _ _ => none)
      ⟨[], some (Element.relation "R" [] []), [], [], [], []⟩
      [("type", "way"), ("ref", "42"), ("role", "outer")]).1
      "R" [] [] "way" .way "42" rfl rfl rfl rfl rfl rfl
  · exact (missing_reference_contract (fun _ _ => none)
      ⟨[], some (Element.way ⟨some "W", [], []⟩), [], [], [], []⟩
      [("ref", "42")]).2 ⟨some "W", [], []⟩ "42" rfl rfl rfl rfl

theorem lookupW_append (σ t : Store) (i : Nat) (h : i < σ.length) :
    lookupW (σ ++ t) i = lookupW σ i := by
  unfold lookupW
  rw [List.getD_eq_getElem?_getD, List.getD_eq_getElem?_getD,
    List.getElem?_append_left h]

theorem lookupW_concat_self (σ : Store) (w : Way) :
    lookupW (σ ++ [w]) σ.length = w := by
  unfold lookupW
  rw [List.getD_eq_getElem?_getD, List.getElem?_concat_length]
  rfl

theorem join_ok_synthetic (a b w : Way) (h : a.join b = .ok w) :
    w.way_id = none ∧ w.tags = [] := by
  unfold Way.join at h
  split_ifs at h <;> (try cases h) <;> exact ⟨rfl, rfl⟩

theorem joinLoopH_spec (cands : List Nat) :
    ∀ σ m closed j σ1 m1 closed1 j1,
      joinLoopH σ m closed j cands = .ok (σ1, m1, closed1, j1) →
      (∃ t, σ1 = σ ++ t) ∧
      (∃ t2, closed1 = closed ++ t2 ∧
        ∀ r ∈ t2, σ.length ≤ r ∧ r < σ1.length ∧
          (lookupW σ1 r).way_id = none ∧ (lookupW σ1 r).tags = []) ∧
      (j1 = j ∨ (σ.length ≤ j1 ∧ j1 < σ1.length ∧
          (lookupW σ1 j1).way_id = none ∧ (lookupW σ1 j1).tags = [])) := by
  induction cands with
  | nil =>
    intro σ m closed j σ1 m1 closed1 j1 h
    cases h
    exact ⟨⟨[], by simp⟩, ⟨[], by simp⟩, Or.inl rfl⟩
  | cons ex rest ih =>
    intro σ m closed j σ1 m1 closed1 j1 h
    simp only [joinLoopH] at h
    cases hj : (lookupW σ j).join (lookupW σ ex) with
    | error e => rw [hj] at h; cases h
    | ok w =>
      rw [hj] at h
      dsimp only at h
      cases hr : removeWayKeyed m (lookupW σ ex) with
      | error e => rw [hr] at h; cases h
      | ok m2 =>
        rw [hr] at h
        dsimp only at h
        obtain ⟨hid, htags⟩ := join_ok_synthetic _ _ _ hj
        by_cases hcl : w.closed = true
        · rw [if_pos hcl] at h
          cases h
          refine ⟨⟨[w], rfl⟩, ⟨[σ.length], rfl, ?_⟩, Or.inr ?_⟩
          · intro r hr2
            rw [List.mem_singleton] at hr2
            subst hr2
            rw [lookupW_concat_self]
            refine ⟨Nat.le_refl _, by simp, hid, htags⟩
          · rw [lookupW_concat_self]
            exact ⟨Nat.le_refl _, by simp, hid, htags⟩
        · rw [if_neg hcl] at h
          obtain ⟨⟨t, ht⟩, ⟨t2, ht2, hprop⟩, hj1⟩ :=
            ih (σ ++ [w]) m2 closed σ.length σ1 m1 closed1 j1 h
          have hlen : σ.length < σ1.length := by
            rw [ht]
            simp
          have hlook : lookupW σ1 σ.length = w := by
            rw [ht, lookupW_append _ _ _ (by simp), lookupW_concat_self]
          refine ⟨⟨[w] ++ t, by rw [ht, List.append_assoc]⟩,
            ⟨t2, ht2, ?_⟩, ?_⟩
          · intro r hr2
            obtain ⟨h1, h2, h3, h4⟩ := hprop r hr2
            refine ⟨?_, h2, h3, h4⟩
            calc σ.length ≤ (σ ++ [w]).length := by simp
              _ ≤ r := h1
          · rcases hj1 with hj1 | ⟨h1, h2, h3, h4⟩
            · subst hj1
              exact Or.inr ⟨Nat.le_refl _, hlen, by rw [hlook]; exact hid,
                by rw [hlook]; exact htags⟩
            · refine Or.inr ⟨?_, h2, h3, h4⟩
              calc σ.length ≤ (σ ++ [w]).length := by simp
                _ ≤ j1 := h1

theorem soupStepH_spec (σ : Store) (closed : List Nat) (m : EMH) (a : Nat)
    (σ1 : Store) (closed1 : List Nat) (m1 : EMH)
    (h : soupStepH σ closed m a = .ok (σ1, closed1, m1)) :
    (∃ t, σ1 = σ ++ t) ∧
    (∃ t2, closed1 = closed ++ t2 ∧
      ∀ r ∈ t2,
        (r = a ∧ (lookupW σ a).closed = true) ∨
        (σ.length ≤ r ∧ r < σ1.length ∧
          (lookupW σ1 r).way_id = none ∧ (lookupW σ1 r).tags = [])) := by
  unfold soupStepH at h
  by_cases hcl : (lookupW σ a).closed = true
  · rw [if_pos hcl] at h
    cases h
    refine ⟨⟨[], by simp⟩, ⟨[a], rfl, ?_⟩⟩
    intro r hr
    rw [List.mem_singleton] at hr
    subst hr
    exact Or.inl ⟨rfl, hcl⟩
  · rw [if_neg hcl] at h
    by_cases he : (getFromEitherEndKeyed m (lookupW σ a)).isEmpty = true
    · rw [if_pos he] at h
      cases ha : addWayKeyed m (lookupW σ a) a with
      | error e => rw [ha] at h; cases h
      | ok m2 =>
        rw [ha] at h
        cases h
        exact ⟨⟨[], by simp⟩, ⟨[], by simp, by simp⟩⟩
    · rw [if_neg he] at h
      cases hl : joinLoopH σ m closed a (getFromEitherEndKeyed m (lookupW σ a))
          with
      | error e => rw [hl] at h; cases h
      | ok quad =>
        obtain ⟨σ', m', closed', jaddr⟩ := quad
        rw [hl] at h
        dsimp only at h
        obtain ⟨⟨t, ht⟩, ⟨t2, ht2, hprop⟩, _⟩ :=
          joinLoopH_spec _ _ _ _ _ _ _ _ _ hl
        by_cases hj : (lookupW σ' jaddr).closed = true
        · rw [if_pos hj] at h
          cases h
          exact ⟨⟨t, ht⟩, ⟨t2, ht2, fun r hr => Or.inr (hprop r hr)⟩⟩
        · rw [if_neg hj] at h
          cases ha : addWayKeyed m' (lookupW σ' jaddr) jaddr with
          | error e => rw [ha] at h; cases h
          | ok m2 =>
            rw [ha] at h
            cases h
            exact ⟨⟨t, ht⟩, ⟨t2, ht2, fun r hr => Or.inr (hprop r hr)⟩⟩

theorem soupFoldH_spec (addrs : List Nat) :
    ∀ σ closed m σ1 closed1 m1,
      (∀ x ∈ addrs, x < σ.length) →
      soupFoldH σ closed m addrs = .ok (σ1, closed1, m1) →
      (∃ t, σ1 = σ ++ t) ∧
      (∃ t2, closed1 = closed ++ t2 ∧
        ∀ r ∈ t2,
          (r ∈ addrs ∧ r < σ.length ∧ (lookupW σ r).closed = true) ∨
          (σ.length ≤ r ∧ r < σ1.length ∧
            (lookupW σ1 r).way_id = none ∧ (lookupW σ1 r).tags = [])) := by
  induction addrs with
  | nil =>
    intro σ closed m σ1 closed1 m1 _ h
    cases h
    exact ⟨⟨[], by simp⟩, ⟨[], by simp, by simp⟩⟩
  | cons a rest ih =>
    intro σ closed m σ1 closed1 m1 hvalid h
    simp only [soupFoldH] at h
    cases hs : soupStepH σ closed m a with
    | error e => rw [hs] at h; cases h
    | ok trip =>
      obtain ⟨σ', closed', m'⟩ := trip
      rw [hs] at h
      dsimp only at h
      obtain ⟨⟨t, ht⟩, ⟨t2, ht2, hprop⟩⟩ := soupStepH_spec _ _ _ _ _ _ _ hs
      have hvalid' : ∀ x ∈ rest, x < σ'.length := by
        intro x hx
        calc x < σ.length := hvalid x (List.mem_cons_of_mem a hx)
          _ ≤ σ'.length := by rw [ht]; simp
      obtain ⟨⟨t', ht'⟩, ⟨t2', ht2', hprop'⟩⟩ :=
        ih σ' closed' m' σ1 closed1 m1 hvalid' h
    -- combine the two phases
      have hσlen : σ.length ≤ σ'.length := by rw [ht]; simp
      have hσ'len : σ'.length ≤ σ1.length := by rw [ht']; simp
      refine ⟨⟨t ++ t', by rw [ht', ht, List.append_assoc]⟩,
        ⟨t2 ++ t2', by rw [ht2', ht2, List.append_assoc], ?_⟩⟩
      intro r hr
      rcases List.mem_append.1 hr with hr | hr
      · rcases hprop r hr with ⟨hra, hrc⟩ | ⟨h1, h2, h3, h4⟩
        · rw [hra]
          exact Or.inl ⟨List.mem_cons_self a rest,
            hvalid a (List.mem_cons_self a rest), hrc⟩
        · refine Or.inr ⟨h1, lt_of_lt_of_le h2 hσ'len, ?_, ?_⟩
          · rw [ht', lookupW_append _ _ _ h2]
            exact h3
          · rw [ht', lookupW_append _ _ _ h2]
            exact h4
      · rcases hprop' r hr with ⟨hra, hrb, hrc⟩ | ⟨h1, h2, h3, h4⟩
        · have hrσ : r < σ.length := hvalid r (List.mem_cons_of_mem a hra)
          refine Or.inl ⟨List.mem_cons_of_mem a hra, hrσ, ?_⟩
          rw [ht, lookupW_append _ _ _ hrσ] at hrc
          exact hrc
        · exact Or.inr ⟨le_trans hσlen h1, h2, h3, h4⟩

/-- C10: the joining pass never mutates its input ways and every joined
result is freshly allocated.  In the store-passing rendering: a successful
`join_way_soup` run only extends the store, so every input address still
holds the identical way record (same identifier, point sequence and tags);
every returned ring is either an input way (a closed one, returned as-is)
or a fresh address, distinct from every input, holding a newly built way
with no identifier and no tags; and `Way.join` itself always returns such
a fresh synthetic way. -/
theorem soup_no_mutation (σ : Store) (addrs : List Nat) (σ1 : Store)
    (res : List Nat) (hvalid : ∀ x ∈ addrs, x < σ.length)
    (h : join_way_soupH σ addrs = .ok (σ1, res)) :
    (∃ t, σ1 = σ ++ t) ∧
    (∀ i, i < σ.length → lookupW σ1 i = lookupW σ i) ∧
    (∀ r ∈ res,
       (r ∈ addrs ∧ lookupW σ1 r = lookupW σ r ∧
         (lookupW σ r).closed = true) ∨
       (σ.length ≤ r ∧ r ∉ addrs ∧
         (lookupW σ1 r).way_id = none ∧ (lookupW σ1 r).tags = [])) ∧
    (∀ u v w : Way, u.join v = .ok w → w.way_id = none ∧ w.tags = []) := by
  unfold join_way_soupH at h
  cases hf : soupFoldH σ [] [] addrs with
  | error e => rw [hf] at h; cases h
  | ok trip =>
    obtain ⟨σ', closed, m⟩ := trip
    rw [hf] at h
    dsimp only at h
    by_cases hm : m.length ≠ 0
    · rw [if_pos hm] at h
      cases h
    · rw [if_neg hm] at h
      cases h
      obtain ⟨⟨t, ht⟩, ⟨t2, ht2, hprop⟩⟩ :=
        soupFoldH_spec addrs σ [] [] σ1 res m hvalid hf
      have hframe : ∀ i, i < σ.length → lookupW σ1 i = lookupW σ i := by
        intro i hi
        rw [ht, lookupW_append _ _ _ hi]
      refine ⟨⟨t, ht⟩, hframe, ?_, fun u v w hw => join_ok_synthetic u v w hw⟩
      intro r hr
      rw [ht2] at hr
      rcases hprop r (by simpa using hr) with ⟨h1, h2, h3⟩ | ⟨h1, h2, h3, h4⟩
      · exact Or.inl ⟨h1, hframe r h2, h3⟩
      · refine Or.inr ⟨h1, ?_, h3, h4⟩
        intro hmem
        exact absurd (hvalid r hmem) (by omega)

/-- C10 witness: a store holding one closed ring, passed by address: the
run returns the same store, the input cell unchanged, and the returned
ring is the input itself. -/
theorem soup_no_mutation_witness :
    (0 ∈ [0] ∧ lookupW [ringABCA] 0 = lookupW [ringABCA] 0 ∧
      (lookupW [ringABCA] 0).closed = true) ∨
    (([ringABCA] : Store).length ≤ 0 ∧ 0 ∉ ([0] : List Nat) ∧
      (lookupW [ringABCA] 0).way_id = none ∧
      (lookupW [ringABCA] 0).tags = []) :=
  (soup_no_mutation [ringABCA] [0] [ringABCA] [0] (by decide)
    (by decide)).2.2.1 0 (by decide)
